import Mathlib

/-!
Verification of the daily-sender bot (src/main.py, src/config.py) against its
natural-language specification.  Strings are modelled as lists of characters;
machine integers as Lean Int/Nat (no overflow is possible in the modelled code).

Section 1: the custom-emoji renderer `render_text_with_ce` (main.py lines 219-244).

The source scans the input with the regular expression
  CE_PATTERN = [<FULLWIDTH<] ws* ce ws* [:FULLWIDTH:] ws* (digit+) ws* [>FULLWIDTH>]   (IGNORECASE)
using re.finditer, HTML-escapes the text between matches, replaces each match by
an HTML tg-emoji tag carrying the captured digit string, and returns the joined
result together with parse mode "HTML" when at least one match occurred, else
the original text and no parse mode.

The character classes below model the members of the Python classes that can
occur in the inputs of interest: the ASCII whitespace characters for backslash-s,
the ASCII decimal digits for backslash-d (the Python classes additionally admit
some non-ASCII members, none of which appear in the claims), and the exact
bracket/separator alternatives written in the pattern.
-/

/-- ASCII members of the Python whitespace class: space, tab, newline, CR, VT, FF. -/
def isWs (c : Char) : Bool :=
  c = ' ' || c = '\t' || c = '\n' || c = '\r' || c = '\x0b' || c = '\x0c'

/-- Opening bracket alternative of CE_PATTERN: ASCII or full-width less-than. -/
def isOpenB (c : Char) : Bool := c = '<' || c = '＜'

/-- Closing bracket alternative of CE_PATTERN: ASCII or full-width greater-than. -/
def isCloseB (c : Char) : Bool := c = '>' || c = '＞'

/-- Separator alternative of CE_PATTERN: ASCII or full-width colon. -/
def isSep (c : Char) : Bool := c = ':' || c = '：'

/-- Decimal digit, the captured class of CE_PATTERN. -/
def isDig (c : Char) : Bool := c.isDigit

/-- Letter c of the literal token "ce", case-insensitive per re.IGNORECASE. -/
def isCeC (c : Char) : Bool := c = 'c' || c = 'C'

/-- Letter e of the literal token "ce", case-insensitive per re.IGNORECASE. -/
def isCeE (c : Char) : Bool := c = 'e' || c = 'E'

/-- Consume exactly one character satisfying p, returning the rest. -/
def expectOne (p : Char → Bool) : List Char → Option (List Char)
  | [] => none
  | c :: rest => if p c then some rest else none

/-- Greedily skip the maximal whitespace run (the ws* pieces of CE_PATTERN). -/
def skipWs (l : List Char) : List Char := l.dropWhile isWs

/--
Attempt to match CE_PATTERN at the head of l.  On success return the captured
digit string and the remaining input after the closing bracket.  The pattern is
deterministic: each ws*, the literal letters, and the greedy digit+ admit no
backtracking (no character is both a digit and whitespace, and the characters
following each greedy run are excluded from the run), so this function computes
exactly what the Python regex engine matches at this position.
-/
def matchCEAt (l : List Char) : Option (List Char × List Char) :=
  match expectOne isOpenB l with
  | none => none
  | some r1 =>
    match expectOne isCeC (skipWs r1) with
    | none => none
    | some r2 =>
      match expectOne isCeE r2 with
      | none => none
      | some r3 =>
        match expectOne isSep (skipWs r3) with
        | none => none
        | some r4 =>
          if ((skipWs r4).takeWhile isDig).isEmpty then none
          else
            match expectOne isCloseB (skipWs ((skipWs r4).dropWhile isDig)) with
            | none => none
            | some r6 => some ((skipWs r4).takeWhile isDig, r6)

/-- Per-character form of the escaping performed by the source; see
html_escape_eq_bind below for the proof that the chained-replace source
function equals escaping character by character. -/
def escChar (c : Char) : List Char :=
  if c = '&' then "&amp;".data
  else if c = '<' then "&lt;".data
  else if c = '>' then "&gt;".data
  else [c]

/-- One pass of Python str.replace with a single-character pattern: every
occurrence of c is replaced by r. -/
def replaceAll (c : Char) (r : List Char) (l : List Char) : List Char :=
  l.flatMap (fun x => if x = c then r else [x])

/-- main.py line 221: s.replace(amp).replace(lt).replace(gt), applied in the
source order (ampersand first, then the two angle brackets). -/
def html_escape (l : List Char) : List Char :=
  replaceAll '>' ("&gt;".data) (replaceAll '<' ("&lt;".data) (replaceAll '&' ("&amp;".data) l))

/-- main.py line 234: the HTML tag substituted for one matched placeholder. -/
def emojiTag (ceid : List Char) : List Char :=
  "<tg-emoji emoji-id=\"".data ++ ceid ++ "\">🙂</tg-emoji>".data

/--
Fuel-indexed form of the finditer loop of render_text_with_ce (main.py lines
228-237): at each position try CE_PATTERN; on a match emit the tg-emoji tag and
continue after the match, counting it; otherwise emit the escaped character and
advance one position.  The fuel only bounds recursion depth; scanCE below
instantiates it with the input length, which is always sufficient because every
match consumes at least one character.
-/
def scanCEF : Nat → List Char → List Char × Nat
  | _, [] => ([], 0)
  | 0, _ :: _ => ([], 0)
  | fuel + 1, c :: rest =>
    match matchCEAt (c :: rest) with
    | some (d, after) =>
        (emojiTag d ++ (scanCEF fuel after).1, (scanCEF fuel after).2 + 1)
    | none =>
        (escChar c ++ (scanCEF fuel rest).1, (scanCEF fuel rest).2)

/-- The finditer loop of render_text_with_ce: returns the joined parts and the
number of matches. -/
def scanCE (l : List Char) : List Char × Nat := scanCEF l.length l

/-- Number of CE_PATTERN matches in a string (the matched counter of the source). -/
def countCE (l : List Char) : Nat := (scanCE l).2

/--
main.py lines 224-244.  Returns the rendered text and the parse mode: when at
least one placeholder matched, the escaped-and-substituted text with mode
"HTML"; otherwise the original text unchanged and no mode.  The function is
total (the source raises no exception on any input string).
-/
def render_text_with_ce (src : List Char) : List Char × Option String :=
  if src = [] then (src, none)
  else
    let p := scanCE src
    if p.2 = 0 then (src, none) else (p.1, some "HTML")

/-! Basic facts about the matcher and the scan loop. -/

theorem expectOne_length {p : Char → Bool} {l r : List Char}
    (h : expectOne p l = some r) : r.length < l.length := by
  cases l with
  | nil => simp [expectOne] at h
  | cons c rest =>
    simp only [expectOne] at h
    split at h
    · cases h; simp
    · cases h

theorem skipWs_length_le (l : List Char) : (skipWs l).length ≤ l.length :=
  (List.dropWhile_sublist isWs).length_le

theorem matchCEAt_length {l d r : List Char}
    (h : matchCEAt l = some (d, r)) : r.length < l.length := by
  unfold matchCEAt at h
  split at h
  · cases h
  · rename_i r1 h1
    split at h
    · cases h
    · rename_i r2 h2
      split at h
      · cases h
      · rename_i r3 h3
        split at h
        · cases h
        · rename_i r4 h4
          split at h
          · cases h
          · split at h
            · cases h
            · rename_i r6 h6
              rw [Option.some.injEq, Prod.mk.injEq] at h
              obtain ⟨-, hr⟩ := h
              subst hr
              have e6 : r6.length < (skipWs ((skipWs r4).dropWhile isDig)).length :=
                expectOne_length h6
              have e5 : ((skipWs r4).dropWhile isDig).length ≤ (skipWs r4).length :=
                (List.dropWhile_sublist isDig).length_le
              have e4 : r4.length < (skipWs r3).length := expectOne_length h4
              have e3 : r3.length < r2.length := expectOne_length h3
              have e2 : r2.length < (skipWs r1).length := expectOne_length h2
              have e1 : r1.length < l.length := expectOne_length h1
              have s5 := skipWs_length_le ((skipWs r4).dropWhile isDig)
              have s4 := skipWs_length_le r4
              have s3 := skipWs_length_le r3
              have s1 := skipWs_length_le r1
              omega

theorem scanCEF_succ_some {c : Char} {rest d after : List Char} (f : Nat)
    (hm : matchCEAt (c :: rest) = some (d, after)) :
    scanCEF (f + 1) (c :: rest) =
      (emojiTag d ++ (scanCEF f after).1, (scanCEF f after).2 + 1) := by
  simp only [scanCEF, hm]

theorem scanCEF_succ_none {c : Char} {rest : List Char} (f : Nat)
    (hm : matchCEAt (c :: rest) = none) :
    scanCEF (f + 1) (c :: rest) =
      (escChar c ++ (scanCEF f rest).1, (scanCEF f rest).2) := by
  simp only [scanCEF, hm]

theorem scanCEF_congr : ∀ (f₁ : Nat) (l : List Char) (f₂ : Nat),
    l.length ≤ f₁ → l.length ≤ f₂ → scanCEF f₁ l = scanCEF f₂ l := by
  intro f₁
  induction f₁ with
  | zero =>
    intro l f₂ h₁ _
    have : l = [] := List.eq_nil_of_length_eq_zero (Nat.le_zero.mp h₁)
    subst this
    cases f₂ <;> rfl
  | succ f ih =>
    intro l f₂ h₁ h₂
    cases l with
    | nil => cases f₂ <;> rfl
    | cons c rest =>
      simp only [List.length_cons] at h₁ h₂
      cases f₂ with
      | zero => omega
      | succ g =>
        cases hm : matchCEAt (c :: rest) with
        | some pr =>
          obtain ⟨d, after⟩ := pr
          have hlt : after.length < rest.length + 1 := by
            simpa using matchCEAt_length hm
          rw [scanCEF_succ_some f hm, scanCEF_succ_some g hm,
            ih after g (by omega) (by omega)]
        | none =>
          rw [scanCEF_succ_none f hm, scanCEF_succ_none g hm,
            ih rest g (by omega) (by omega)]

theorem scanCE_nil : scanCE [] = ([], 0) := rfl

theorem scanCE_cons_some {c : Char} {rest d after : List Char}
    (hm : matchCEAt (c :: rest) = some (d, after)) :
    scanCE (c :: rest) = (emojiTag d ++ (scanCE after).1, (scanCE after).2 + 1) := by
  have hlt : after.length ≤ rest.length := by
    have := matchCEAt_length hm; simp only [List.length_cons] at this; omega
  show scanCEF (rest.length + 1) (c :: rest) = _
  rw [scanCEF_succ_some rest.length hm]
  unfold scanCE
  rw [scanCEF_congr rest.length after after.length hlt le_rfl]

theorem scanCE_cons_none {c : Char} {rest : List Char}
    (hm : matchCEAt (c :: rest) = none) :
    scanCE (c :: rest) = (escChar c ++ (scanCE rest).1, (scanCE rest).2) := by
  show scanCEF (rest.length + 1) (c :: rest) = _
  rw [scanCEF_succ_none rest.length hm]
  rfl

/-! The segment-wise chained-replace escaping of the source equals escaping
character by character. -/

theorem replaceAll_append (c : Char) (r a b : List Char) :
    replaceAll c r (a ++ b) = replaceAll c r a ++ replaceAll c r b := by
  simp [replaceAll]

theorem html_escape_append (a b : List Char) :
    html_escape (a ++ b) = html_escape a ++ html_escape b := by
  simp [html_escape, replaceAll_append]

theorem html_escape_eq_flatMap (l : List Char) : html_escape l = l.flatMap escChar := by
  induction l with
  | nil => rfl
  | cons x l ih =>
    rw [← List.singleton_append, html_escape_append, List.flatMap_append, ih]
    congr 1
    by_cases h1 : x = '&'
    · subst h1; decide
    · by_cases h2 : x = '<'
      · subst h2; decide
      · by_cases h3 : x = '>'
        · subst h3; decide
        · show html_escape [x] = [x].flatMap escChar
          simp [html_escape, replaceAll, escChar, h1, h2, h3]

/-! Character-class facts. -/

theorem isDig_not_isWs {c : Char} (h : isDig c = true) : isWs c = false := by
  cases hw : isWs c with
  | false => rfl
  | true =>
    exfalso
    simp only [isWs, Bool.or_eq_true, decide_eq_true_eq] at hw
    rcases hw with ((((rfl | rfl) | rfl) | rfl) | rfl) | rfl <;> exact absurd h (by decide)

theorem isDig_not_isOpenB {c : Char} (h : isDig c = true) : isOpenB c = false := by
  cases hw : isOpenB c with
  | false => rfl
  | true =>
    exfalso
    simp only [isOpenB, Bool.or_eq_true, decide_eq_true_eq] at hw
    rcases hw with rfl | rfl <;> exact absurd h (by decide)

theorem matchCEAt_none_of_not_open {c : Char} (rest : List Char) (h : isOpenB c = false) :
    matchCEAt (c :: rest) = none := by
  unfold matchCEAt
  simp [expectOne, h]

/-! Scanning a run of characters that can start no match escapes them one by
one; matching at the head of a canonical placeholder consumes exactly it. -/

theorem scanCE_append_noOpen (pre tail : List Char)
    (h : ∀ c ∈ pre, isOpenB c = false) :
    scanCE (pre ++ tail) = (pre.flatMap escChar ++ (scanCE tail).1, (scanCE tail).2) := by
  induction pre with
  | nil => simp
  | cons c pre ih =>
    have hc : isOpenB c = false := h c (by simp)
    have hrec := ih (fun x hx => h x (by simp [hx]))
    rw [List.cons_append, scanCE_cons_none (matchCEAt_none_of_not_open _ hc), hrec]
    simp

theorem scanCE_noOpen (l : List Char) (h : ∀ c ∈ l, isOpenB c = false) :
    scanCE l = (l.flatMap escChar, 0) := by
  have := scanCE_append_noOpen l [] h
  simpa [scanCE_nil] using this

theorem takeWhile_append_of_neg {p : Char → Bool} {a : List Char} {x : Char} (tail : List Char)
    (ha : ∀ c ∈ a, p c = true) (hx : p x = false) :
    (a ++ x :: tail).takeWhile p = a ∧ (a ++ x :: tail).dropWhile p = x :: tail := by
  induction a with
  | nil => simp [List.takeWhile_cons, List.dropWhile_cons, hx]
  | cons c a ih =>
    have hc : p c = true := ha c (by simp)
    have hrec := ih (fun y hy => ha y (by simp [hy]))
    simp [List.takeWhile_cons, List.dropWhile_cons, hc, hrec.1, hrec.2]

theorem matchCEAt_canonical (d rest : List Char)
    (hne : d ≠ []) (hd : ∀ c ∈ d, isDig c = true) :
    matchCEAt ('<' :: 'c' :: 'e' :: ':' :: (d ++ '>' :: rest)) = some (d, rest) := by
  obtain ⟨c0, d', rfl⟩ : ∃ c0 d', d = c0 :: d' := by
    cases d with
    | nil => exact absurd rfl hne
    | cons c0 d' => exact ⟨c0, d', rfl⟩
  have hc0 : isDig c0 = true := hd c0 (by simp)
  have hws0 : isWs c0 = false := isDig_not_isWs hc0
  have htw := takeWhile_append_of_neg (p := isDig) (x := '>') rest hd (by decide)
  have ht1 : List.takeWhile isDig (c0 :: (d' ++ '>' :: rest)) = c0 :: d' := by
    simpa using htw.1
  have ht2 : List.dropWhile isDig (c0 :: (d' ++ '>' :: rest)) = '>' :: rest := by
    simpa using htw.2
  unfold matchCEAt
  simp only [expectOne, skipWs, List.cons_append, List.dropWhile_cons]
  simp [hc0, hws0, ht1, ht2,
    show isOpenB '<' = true by decide, show isWs 'c' = false by decide,
    show isCeC 'c' = true by decide, show isCeE 'e' = true by decide,
    show isWs ':' = false by decide, show isSep ':' = true by decide,
    show isWs '>' = false by decide, show isCloseB '>' = true by decide]

/-- A source string assembled from N canonical placeholder segments: each
segment is a stretch of text containing no opening bracket followed by the
placeholder <ce:digits>, and the string ends with a tail containing no opening
bracket. -/
def mkSrc : List (List Char × List Char) → List Char → List Char
  | [], post => post
  | (pre, d) :: rest, post =>
      pre ++ ('<' :: 'c' :: 'e' :: ':' :: (d ++ '>' :: mkSrc rest post))

/-- The text that rendering such a string produces: each stretch of plain text
HTML-escaped, each placeholder replaced by its tg-emoji tag. -/
def mkOut : List (List Char × List Char) → List Char → List Char
  | [], post => post.flatMap escChar
  | (pre, d) :: rest, post => pre.flatMap escChar ++ (emojiTag d ++ mkOut rest post)

/-- Well-formedness of a segment list: plain stretches hold no opening bracket
and each placeholder id is a nonempty digit string. -/
def SegsOk (segs : List (List Char × List Char)) : Prop :=
  ∀ s ∈ segs, (∀ c ∈ s.1, isOpenB c = false) ∧ s.2 ≠ [] ∧ ∀ c ∈ s.2, isDig c = true

instance (segs : List (List Char × List Char)) : Decidable (SegsOk segs) := by
  unfold SegsOk
  infer_instance

theorem scanCE_mkSrc (segs : List (List Char × List Char)) (post : List Char)
    (hs : SegsOk segs) (hp : ∀ c ∈ post, isOpenB c = false) :
    scanCE (mkSrc segs post) = (mkOut segs post, segs.length) := by
  induction segs with
  | nil => exact scanCE_noOpen post hp
  | cons s rest ih =>
    obtain ⟨pre, d⟩ := s
    obtain ⟨h1, h2, h3⟩ := hs ⟨pre, d⟩ (by simp)
    have hrec := ih (fun x hx => hs x (by simp [hx]))
    show scanCE (pre ++ _) = _
    rw [scanCE_append_noOpen _ _ h1,
      scanCE_cons_some (matchCEAt_canonical d (mkSrc rest post) h2 h3), hrec]
    simp [mkOut, List.append_assoc]

/-- C6: for every input string with zero placeholder occurrences,
render_text_with_ce returns the input text unchanged together with no
rich-text parse mode (the caller then omits rich-text parameters); the
function is total, so it raises on no input. -/
theorem c6_render_no_placeholder (src : List Char) (h : countCE src = 0) :
    render_text_with_ce src = (src, none) := by
  unfold render_text_with_ce
  split
  · rfl
  · simp only [countCE] at h
    simp [h]

/-- C6 witness: a concrete placeholder-free input (including a bare angle
bracket and an ampersand) comes back untouched with no parse mode. -/
theorem c6_render_no_placeholder_witness :
    countCE ("Hello & <world>".data) = 0
    ∧ render_text_with_ce ("Hello & <world>".data) = ("Hello & <world>".data, none) :=
  ⟨by decide, c6_render_no_placeholder _ (by decide)⟩

/-- C9: the parse mode is "HTML" exactly when at least one placeholder
matched; with zero matches the text comes back with no escaping at all; and on
a decomposition plain-text/placeholder/plain-text (the plain stretches free of
opening brackets, the id a nonempty digit string) the output is the
HTML-escaped plain text around a tg-emoji tag carrying the captured digits. -/
theorem c9_render_mode_and_escaping (src pre d post : List Char) :
    ((render_text_with_ce src).2 = some "HTML" ↔ countCE src ≠ 0)
    ∧ (countCE src = 0 → (render_text_with_ce src).1 = src)
    ∧ ((∀ c ∈ pre, isOpenB c = false) → (∀ c ∈ post, isOpenB c = false) →
        d ≠ [] → (∀ c ∈ d, isDig c = true) →
        render_text_with_ce (pre ++ ('<' :: 'c' :: 'e' :: ':' :: (d ++ '>' :: post)))
          = (html_escape pre ++ (emojiTag d ++ html_escape post), some "HTML")) := by
  refine ⟨?_, ?_, ?_⟩
  · unfold render_text_with_ce
    split
    · rename_i hsrc
      subst hsrc
      simp [countCE, scanCE_nil]
    · simp only [countCE]
      split
      · rename_i h0
        simp [h0]
      · rename_i h0
        simp [h0]
  · intro h
    unfold render_text_with_ce
    split
    · rfl
    · simp only [countCE] at h
      simp [h]
  · intro hpre hpost hne hd
    have hseg : SegsOk [(pre, d)] := by
      intro s hs
      simp only [List.mem_singleton] at hs
      subst hs
      exact ⟨hpre, hne, hd⟩
    have hm := scanCE_mkSrc [(pre, d)] post hseg hpost
    have hsrc : mkSrc [(pre, d)] post
        = pre ++ ('<' :: 'c' :: 'e' :: ':' :: (d ++ '>' :: post)) := rfl
    rw [hsrc] at hm
    have hnil : pre ++ ('<' :: 'c' :: 'e' :: ':' :: (d ++ '>' :: post)) ≠ [] := by
      simp
    unfold render_text_with_ce
    rw [if_neg hnil]
    simp only [hm]
    simp [mkOut, html_escape_eq_flatMap]

/-- C9 witness: the theorem applied at src = "a&b" (zero matches, mode none,
text unchanged) and at the decomposition "Hi " / 123 / " there". -/
theorem c9_render_mode_and_escaping_witness :
    ¬ ((render_text_with_ce ("a&b".data)).2 = some "HTML")
    ∧ (render_text_with_ce ("a&b".data)).1 = "a&b".data
    ∧ render_text_with_ce ("Hi ".data ++ ('<' :: 'c' :: 'e' :: ':' :: ("123".data ++ '>' :: " there".data)))
        = (html_escape ("Hi ".data) ++ (emojiTag ("123".data) ++ html_escape (" there".data)),
           some "HTML") :=
  ⟨fun hc => absurd ((c9_render_mode_and_escaping ("a&b".data) [] [] []).1.mp hc) (by decide),
    (c9_render_mode_and_escaping ("a&b".data) [] [] []).2.1 (by decide),
    (c9_render_mode_and_escaping [] ("Hi ".data) ("123".data) (" there".data)).2.2
      (by decide) (by decide) (by decide) (by decide)⟩

/-- C1 as stated fails on the code: rendering "Hi <ce:123> there" does not
yield the text "Hi ‍ there" with a zero-width joiner at UTF-16 offset 3
(the renderer produces no annotation list at all); the code instead emits an
HTML tg-emoji tag and parse mode "HTML". -/
theorem c1_counterexample :
    render_text_with_ce ("Hi <ce:123> there".data)
      = ("Hi <tg-emoji emoji-id=\"123\">🙂</tg-emoji> there".data, some "HTML")
    ∧ (render_text_with_ce ("Hi <ce:123> there".data)).1 ≠ "Hi ‍ there".data := by
  exact ⟨by decide, by decide⟩

/-- C1 amended: for every input assembled from N well-formed canonical
placeholders (N ≥ 1) separated by opening-bracket-free text, render matches
exactly N placeholders, returns parse mode "HTML", and produces the text in
which each placeholder, in order, is replaced by the tg-emoji tag carrying its
digit string while the plain stretches are HTML-escaped. -/
theorem c1_render_n_placeholders (segs : List (List Char × List Char)) (post : List Char)
    (hs : SegsOk segs) (hp : ∀ c ∈ post, isOpenB c = false) (hn : segs ≠ []) :
    countCE (mkSrc segs post) = segs.length
    ∧ render_text_with_ce (mkSrc segs post) = (mkOut segs post, some "HTML") := by
  have hm := scanCE_mkSrc segs post hs hp
  constructor
  · simp [countCE, hm]
  · have hnil : mkSrc segs post ≠ [] := by
      cases segs with
      | nil => exact absurd rfl hn
      | cons s rest =>
        obtain ⟨pre, d⟩ := s
        show pre ++ _ ≠ []
        simp
    have hlen : segs.length ≠ 0 := by
      cases segs with
      | nil => exact absurd rfl hn
      | cons s rest => simp
    unfold render_text_with_ce
    rw [if_neg hnil]
    simp only [hm]
    simp [hlen]

/-- C1 amended witness: the example input "Hi <ce:123> there" of the spec has
exactly one match and renders to the tg-emoji form with parse mode "HTML". -/
theorem c1_render_n_placeholders_witness :
    countCE ("Hi <ce:123> there".data) = 1
    ∧ render_text_with_ce ("Hi <ce:123> there".data)
        = ("Hi <tg-emoji emoji-id=\"123\">🙂</tg-emoji> there".data, some "HTML") := by
  have h := c1_render_n_placeholders [("Hi ".data, "123".data)] (" there".data)
    (by decide) (by decide) (by decide)
  have hsrc : mkSrc [("Hi ".data, "123".data)] (" there".data) = "Hi <ce:123> there".data := by
    decide
  have hout : mkOut [("Hi ".data, "123".data)] (" there".data)
      = "Hi <tg-emoji emoji-id=\"123\">🙂</tg-emoji> there".data := by
    decide
  rw [hsrc, hout] at h
  exact ⟨h.1, h.2⟩

/-!
Section 2: the schedule store (main.py lines 176-208, config.py lines 46-50)
and the scheduler reconciliation loops (main.py lines 804-812, 957-960,
967-970, 973-980).  Schedule entries are (hour, minute) pairs of integers.
-/

/-- Strict lexicographic order on (hour, minute) pairs: the order in which
Python sorted() arranges the corresponding tuples. -/
def pairLt (a b : Int × Int) : Prop := a.1 < b.1 ∨ (a.1 = b.1 ∧ a.2 < b.2)

instance (a b : Int × Int) : Decidable (pairLt a b) := by
  unfold pairLt
  infer_instance

theorem pairLt_irrefl (a : Int × Int) : ¬ pairLt a a := by
  simp [pairLt]

theorem pairLt_trans {a b c : Int × Int} : pairLt a b → pairLt b c → pairLt a c := by
  rcases a with ⟨a1, a2⟩
  rcases b with ⟨b1, b2⟩
  rcases c with ⟨c1, c2⟩
  simp only [pairLt]
  omega

theorem pairLt_total {a b : Int × Int} (hne : a ≠ b) : pairLt a b ∨ pairLt b a := by
  rcases a with ⟨a1, a2⟩
  rcases b with ⟨b1, b2⟩
  simp only [ne_eq, Prod.mk.injEq, not_and] at hne
  simp only [pairLt]
  by_cases h : a1 = b1
  · subst h
    have := hne rfl
    omega
  · omega

/-- Insert one pair into a strictly-sorted duplicate-free list, keeping it
strictly sorted and duplicate-free. -/
def insertPair (x : Int × Int) : List (Int × Int) → List (Int × Int)
  | [] => [x]
  | y :: ys => if x = y then y :: ys else if pairLt x y then x :: y :: ys else y :: insertPair x ys

/-- sorted(set(items)) of main.py line 201-202: the unique strictly-ascending
enumeration of the distinct elements of the input (characterized below by
sorted_sortDedup, nodup and mem_sortDedup together with sorted_eq_of_mem_iff). -/
def sortDedup (l : List (Int × Int)) : List (Int × Int) := l.foldr insertPair []

theorem mem_insertPair {x a : Int × Int} : ∀ {l : List (Int × Int)},
    a ∈ insertPair x l ↔ a = x ∨ a ∈ l := by
  intro l
  induction l with
  | nil => simp [insertPair]
  | cons y ys ih =>
    simp only [insertPair]
    split
    · rename_i hxy
      subst hxy
      simp only [List.mem_cons]
      tauto
    · split
      · simp only [List.mem_cons]
      · simp only [List.mem_cons, ih]
        tauto

theorem sorted_insertPair {x : Int × Int} : ∀ {l : List (Int × Int)},
    l.Sorted pairLt → (insertPair x l).Sorted pairLt := by
  intro l
  induction l with
  | nil => intro _; simp [insertPair]
  | cons y ys ih =>
    intro hs
    rw [List.sorted_cons] at hs
    obtain ⟨hy, hys⟩ := hs
    simp only [insertPair]
    split
    · rw [List.sorted_cons]
      exact ⟨hy, hys⟩
    · rename_i hxy
      split
      · rename_i hlt
        rw [List.sorted_cons]
        refine ⟨fun b hb => ?_, List.sorted_cons.mpr ⟨hy, hys⟩⟩
        rcases List.mem_cons.mp hb with rfl | hb'
        · exact hlt
        · exact pairLt_trans hlt (hy b hb')
      · rename_i hlt
        have hyx : pairLt y x := by
          rcases pairLt_total hxy with h | h
          · exact absurd h hlt
          · exact h
        rw [List.sorted_cons]
        refine ⟨fun b hb => ?_, ih hys⟩
        rcases mem_insertPair.mp hb with rfl | hb'
        · exact hyx
        · exact hy b hb'

theorem mem_sortDedup {a : Int × Int} : ∀ {l : List (Int × Int)},
    a ∈ sortDedup l ↔ a ∈ l := by
  intro l
  induction l with
  | nil => simp [sortDedup]
  | cons x xs ih =>
    show a ∈ insertPair x (sortDedup xs) ↔ _
    rw [mem_insertPair, ih]
    simp only [List.mem_cons]

theorem sorted_sortDedup : ∀ (l : List (Int × Int)), (sortDedup l).Sorted pairLt := by
  intro l
  induction l with
  | nil => simp [sortDedup]
  | cons x xs ih => exact sorted_insertPair ih

theorem nodup_of_sorted_pairLt : ∀ {l : List (Int × Int)}, l.Sorted pairLt → l.Nodup := by
  intro l
  induction l with
  | nil => intro _; simp
  | cons x xs ih =>
    intro hs
    rw [List.sorted_cons] at hs
    rw [List.nodup_cons]
    exact ⟨fun hmem => pairLt_irrefl x (hs.1 x hmem), ih hs.2⟩

theorem sorted_eq_of_mem_iff : ∀ {l₁ l₂ : List (Int × Int)},
    l₁.Sorted pairLt → l₂.Sorted pairLt → (∀ a, a ∈ l₁ ↔ a ∈ l₂) → l₁ = l₂ := by
  intro l₁
  induction l₁ with
  | nil =>
    intro l₂ _ _ hmem
    cases l₂ with
    | nil => rfl
    | cons b t => exact absurd ((hmem b).mpr (by simp)) (by simp)
  | cons a t₁ ih =>
    intro l₂ h₁ h₂ hmem
    cases l₂ with
    | nil => exact absurd ((hmem a).mp (by simp)) (by simp)
    | cons b t₂ =>
      rw [List.sorted_cons] at h₁ h₂
      have hab : a = b := by
        by_contra hne
        rcases List.mem_cons.mp ((hmem a).mp (by simp)) with h | h
        · exact hne h
        · rcases List.mem_cons.mp ((hmem b).mpr (by simp)) with h' | h'
          · exact hne h'.symm
          · exact pairLt_irrefl a (pairLt_trans (h₁.1 b h') (h₂.1 a h))
      subst hab
      have htail : ∀ x, x ∈ t₁ ↔ x ∈ t₂ := by
        intro x
        constructor
        · intro hx
          rcases List.mem_cons.mp ((hmem x).mp (List.mem_cons_of_mem a hx)) with rfl | h
          · exact absurd (h₁.1 x hx) (pairLt_irrefl x)
          · exact h
        · intro hx
          rcases List.mem_cons.mp ((hmem x).mpr (List.mem_cons_of_mem a hx)) with rfl | h
          · exact absurd (h₂.1 x hx) (pairLt_irrefl x)
          · exact h
      rw [ih h₁.2 h₂.2 htail]

/-- config.py lines 46-50: SCHEDULES_DEFAULT, the fixed trigger list used when
the schedules file is absent or unreadable. -/
def SCHEDULES_DEFAULT : List (Int × Int) := [(9, 0), (12, 0), (15, 0)]

/-- The observable states of the schedules backing file, as discriminated by
ScheduleManager.list (main.py lines 181-192): file absent; file unreadable or
invalid JSON (json.load raises, the except branch logs and falls through); a
JSON object carrying a "schedules" key; a bare JSON list; or JSON of any other
shape (which also falls through to the default).  Entries are modelled as
(hour, minute) integer pairs. -/
inductive SchedFile where
  | absent
  | malformed
  | dictSchedules (entries : List (Int × Int))
  | bareList (entries : List (Int × Int))
  | otherJson
deriving DecidableEq

/-- main.py lines 181-192: return the stored entries when the file exists and
holds a recognized shape, the module default otherwise.  The stored entries are
returned exactly as stored - the function neither sorts nor deduplicates. -/
def ScheduleManager.list (f : SchedFile) : List (Int × Int) :=
  match f with
  | SchedFile.dictSchedules entries => entries
  | SchedFile.bareList entries => entries
  | _ => SCHEDULES_DEFAULT

/-- main.py lines 198-203: append the new pair to list(), deduplicate through a
set keyed on (hour, minute), sort ascending (Python sorted on pairs is the
lexicographic order pairLt), and persist the result via save_all, which writes
the dict shape.  sortDedup computes the unique strictly-sorted enumeration of
the distinct elements, which is exactly sorted(set(items)). -/
def ScheduleManager.add (f : SchedFile) (hour minute : Int) : SchedFile :=
  SchedFile.dictSchedules (sortDedup (ScheduleManager.list f ++ [(hour, minute)]))

/-- main.py lines 949-956: the POST endpoint validates 0 <= h <= 23 and
0 <= m <= 59 and raises HTTP 400 "Invalid time" before touching the store;
otherwise it delegates to ScheduleManager.add.  The result is the new file
state paired with the outcome delivered to the caller. -/
def api_add_schedule (f : SchedFile) (h m : Int) : SchedFile × Except String Unit :=
  if 0 ≤ h ∧ h ≤ 23 ∧ 0 ≤ m ∧ m ≤ 59 then
    (ScheduleManager.add f h m, Except.ok ())
  else (f, Except.error "Invalid time")

/-- One armed cron trigger of the AsyncIOScheduler: the (hour, minute) passed
to scheduler.add_job(send_daily_message, "cron", ...). -/
structure CronJob where
  hour : Int
  minute : Int
deriving DecidableEq

/-- main.py lines 973-980 (the same loop appears at 804-812, 957-960 and
967-970): remove every currently armed job, then arm one cron job per entry of
ScheduleManager.list().  The previous job set is discarded wholesale. -/
def api_reload (_jobs : List CronJob) (f : SchedFile) : List CronJob :=
  (ScheduleManager.list f).map (fun s => { hour := s.1, minute := s.2 })

/-- C3: adding a trigger whose hour lies outside [0,23] or whose minute lies
outside [0,59] fails with the "Invalid time" error and leaves the stored
schedule file unchanged (the validation happens before the store is touched). -/
theorem c3_add_invalid_time (f : SchedFile) (h m : Int)
    (hbad : h < 0 ∨ 23 < h ∨ m < 0 ∨ 59 < m) :
    api_add_schedule f h m = (f, Except.error "Invalid time") := by
  unfold api_add_schedule
  rw [if_neg (by omega)]

/-- C3 witness: add(25, 0) on an absent store fails with Invalid time and the
store stays absent. -/
theorem c3_add_invalid_time_witness :
    ((25 : Int) < 0 ∨ (23 : Int) < 25 ∨ (0 : Int) < 0 ∨ (59 : Int) < 0)
    ∧ api_add_schedule SchedFile.absent 25 0 = (SchedFile.absent, Except.error "Invalid time") :=
  ⟨by omega, c3_add_invalid_time SchedFile.absent 25 0 (by omega)⟩

/-- C7: ScheduleManager.add deduplicates by (hour, minute) set semantics and
re-sorts ascending: for every prior store state, after an add the persisted
list is strictly ascending with no duplicates and contains the added pair, and
adding the same pair a second time returns the same store, so the pair is
stored exactly once. -/
theorem c7_add_dedup_sorted (f : SchedFile) (h m : Int) :
    (ScheduleManager.list (ScheduleManager.add f h m)).Sorted pairLt
    ∧ (ScheduleManager.list (ScheduleManager.add f h m)).Nodup
    ∧ (h, m) ∈ ScheduleManager.list (ScheduleManager.add f h m)
    ∧ ScheduleManager.add (ScheduleManager.add f h m) h m = ScheduleManager.add f h m := by
  have hlist : ScheduleManager.list (ScheduleManager.add f h m)
      = sortDedup (ScheduleManager.list f ++ [(h, m)]) := rfl
  refine ⟨?_, ?_, ?_, ?_⟩
  · rw [hlist]
    exact sorted_sortDedup _
  · rw [hlist]
    exact nodup_of_sorted_pairLt (sorted_sortDedup _)
  · rw [hlist]
    exact mem_sortDedup.mpr (by simp)
  · show SchedFile.dictSchedules _ = SchedFile.dictSchedules _
    rw [hlist]
    congr 1
    apply sorted_eq_of_mem_iff (sorted_sortDedup _) (sorted_sortDedup _)
    intro a
    rw [mem_sortDedup, List.mem_append, mem_sortDedup, List.mem_append]
    simp only [List.mem_singleton]
    tauto

/-- C4 amended: list() returns the fixed default exactly when the backing store
is absent, unreadable, or of an unrecognized JSON shape; when the stored JSON
holds a schedule list - even an empty one - list() returns exactly that stored
list in stored order; lists persisted by add are ascending. -/
theorem c4_list_default_or_stored :
    ScheduleManager.list SchedFile.absent = SCHEDULES_DEFAULT
    ∧ ScheduleManager.list SchedFile.malformed = SCHEDULES_DEFAULT
    ∧ ScheduleManager.list SchedFile.otherJson = SCHEDULES_DEFAULT
    ∧ (∀ entries, ScheduleManager.list (SchedFile.dictSchedules entries) = entries
        ∧ ScheduleManager.list (SchedFile.bareList entries) = entries)
    ∧ (∀ f h m, (ScheduleManager.list (ScheduleManager.add f h m)).Sorted pairLt) :=
  ⟨rfl, rfl, rfl, fun _ => ⟨rfl, rfl⟩, fun _ _ _ => sorted_sortDedup _⟩

/-- C4 as stated fails on the code: an existing backing store holding an empty
schedule list (exactly the state save_all writes once the last trigger is
deleted) makes list() return the empty list, not the fixed default. -/
theorem c4_counterexample :
    ScheduleManager.list (SchedFile.dictSchedules []) = []
    ∧ SCHEDULES_DEFAULT ≠ [] :=
  ⟨rfl, by decide⟩

/-- C8: after api_reload the number of live cron jobs equals the length of
ScheduleManager.list(), every live job carries an (hour, minute) pair of that
list (pairwise-distinct pairs whenever the stored list is duplicate-free, which
holds for every list that add writes), and reconciling again with no store
change reproduces the same job set, hence the same count (idempotence). -/
theorem c8_reload_reconcile (jobs : List CronJob) (f : SchedFile) :
    (api_reload jobs f).length = (ScheduleManager.list f).length
    ∧ api_reload (api_reload jobs f) f = api_reload jobs f
    ∧ (∀ j ∈ api_reload jobs f, (j.hour, j.minute) ∈ ScheduleManager.list f)
    ∧ ((ScheduleManager.list f).Nodup → (api_reload jobs f).Nodup) := by
  refine ⟨by simp [api_reload], rfl, ?_, ?_⟩
  · intro j hj
    simp only [api_reload, List.mem_map] at hj
    obtain ⟨s, hs, rfl⟩ := hj
    simpa using hs
  · intro hnd
    unfold api_reload
    have hinj : Function.Injective (fun s : Int × Int => CronJob.mk s.1 s.2) := by
      intro a b hab
      cases a
      cases b
      simpa [CronJob.mk.injEq, Prod.ext_iff] using hab
    exact hnd.map hinj

/-- C8 witness: with a two-entry duplicate-free store, a job armed by the
reload carries a pair of the list and the armed jobs are pairwise distinct. -/
theorem c8_reload_reconcile_witness :
    ((9 : Int), (0 : Int)) ∈ ScheduleManager.list (SchedFile.bareList [(9, 0), (12, 0)])
    ∧ (api_reload [] (SchedFile.bareList [(9, 0), (12, 0)])).Nodup :=
  ⟨(c8_reload_reconcile [] (SchedFile.bareList [(9, 0), (12, 0)])).2.2.1
      (CronJob.mk 9 0) (by decide),
    (c8_reload_reconcile [] (SchedFile.bareList [(9, 0), (12, 0)])).2.2.2 (by decide)⟩

/-!
Section 3: the broadcast fan-out of send_daily_message (main.py lines 319-339).
The loop body - the two transport calls of the external Telegram client - is
abstracted as a function from recipient id to a delivery outcome, as the spec
treats the transport as an external collaborator; everything the loop itself
does is modelled: iterate over every id of user_manager.all_chat_ids(), wrap
each attempt in try/except, log and continue on failure.
-/

/-- Whether one delivery attempt succeeded. -/
def deliveredOk : Except String Unit → Bool
  | Except.ok _ => true
  | Except.error _ => false

/-- One iteration of the fan-out loop: attempt delivery to uid; an exception
from the transport is caught by the except branch, logged, and never
propagates.  The Bool records which of the two log lines ran. -/
def attemptSend (send : Int → Except String Unit) (uid : Int) : Int × Bool :=
  (uid, deliveredOk (send uid))

/-- main.py lines 319-339: the per-recipient loop of send_daily_message,
returning the outcome log.  No branch aborts the loop or re-raises, so the
run as a whole always completes. -/
def send_daily_message (send : Int → Except String Unit) : List Int → List (Int × Bool)
  | [] => []
  | uid :: rest => attemptSend send uid :: send_daily_message send rest

/-- C2: one broadcast run attempts delivery to every recipient id returned by
the registry, in order, for every pattern of per-recipient failures: the
attempted ids are exactly the registry list, and the recorded outcome of each
recipient depends only on its own delivery result, so a failure for one
recipient neither prevents the attempt to any later recipient nor alters the
outcome of any other, and the run never fails as a whole. -/
theorem c2_fanout_isolation (send : Int → Except String Unit) (ids : List Int) :
    ((send_daily_message send ids).map Prod.fst = ids)
    ∧ (∀ uid ∈ ids, (uid, deliveredOk (send uid)) ∈ send_daily_message send ids) := by
  constructor
  · induction ids with
    | nil => rfl
    | cons u rest ih => simp [send_daily_message, attemptSend, ih]
  · intro uid hmem
    induction ids with
    | nil => cases hmem
    | cons u rest ih =>
      rcases List.mem_cons.mp hmem with rfl | h
      · exact List.mem_cons_self _ _
      · exact List.mem_cons_of_mem _ (ih h)

/-- A stub transport for the C2 witness: delivery to recipient 1 always
fails, delivery to any other recipient succeeds. -/
def stubSend (uid : Int) : Except String Unit :=
  if uid = 1 then Except.error "boom" else Except.ok ()

/-- C2 witness: with recipients [1, 2] and the stub transport failing on 1,
both recipients are attempted and recipient 2 still records success. -/
theorem c2_fanout_isolation_witness :
    ((send_daily_message stubSend [1, 2]).map Prod.fst = [1, 2])
    ∧ ((2 : Int), true) ∈ send_daily_message stubSend [1, 2] := by
  refine ⟨(c2_fanout_isolation stubSend [1, 2]).1, ?_⟩
  have h := (c2_fanout_isolation stubSend [1, 2]).2 2 (by decide)
  have e : deliveredOk (stubSend 2) = true := by decide
  rw [e] at h
  exact h


/-!
Section 4: the message-group pool (main.py lines 93-174) and the add-group API
endpoint (main.py lines 874-913).  A button dict is modelled by the three keys
the source reads; any other JSON value in a buttons list is kept abstract.
Image filenames are lists of characters so that os.path.basename is a
computable function of the model.  The source calls a message group simply a
group; the model names the record MsgGroup because the plain name is taken.
-/

/-- The three keys of a button dict that the source reads: text (a missing key
is modelled as the empty string, which is equally falsy), url and
callback_data (a missing key is none; a present empty string is falsy in
Python, which truthyS reproduces). -/
structure BtnJson where
  text : String
  url : Option String
  callback_data : Option String
deriving DecidableEq

/-- One element of a buttons JSON list: a dict or any other JSON value. -/
inductive BtnEntry where
  | dict (b : BtnJson)
  | nonDict
deriving DecidableEq

/-- Python truthiness of an optional string field. -/
def truthyS : Option String → Bool
  | none => false
  | some s => s != ""

/-- os.path.basename on POSIX: the suffix after the last slash, computed by a
left fold that restarts at every '/'. -/
def basenameL (l : List Char) : List Char :=
  l.foldl (fun acc c => if c = '/' then [] else acc ++ [c]) []

/-- main.py line 131: os.path.basename(image_filename) if image_filename else
None - a falsy (absent or empty) name stores None, anything else stores its
basename. -/
def storeImage : Option (List Char) → Option (List Char)
  | none => none
  | some l => if l = [] then none else some (basenameL l)

/-- One message group as held by the pool: optional image filename, message
text, button list.  In the source a group is a JSON dict; _load and the
constructor force its buttons field to be a list, which the typed field
reflects. -/
structure MsgGroup where
  image : Option (List Char)
  message : String
  buttons : List BtnEntry
deriving DecidableEq

/-- main.py lines 129-135: append a new group with the basenamed image, the
stripped message, and the supplied buttons stored verbatim, then persist. -/
def MessageGroupManager.add (groups : List MsgGroup) (image_filename : Option (List Char))
    (message : String) (buttons : List BtnEntry) : List MsgGroup :=
  groups ++ [{ image := storeImage image_filename, message := message.trim, buttons := buttons }]

/-- main.py lines 151-167: the button sanitization performed by update: keep
only dicts with non-empty stripped text and a truthy url or, failing that, a
truthy callback_data; everything else is dropped. -/
def sanitizeButtons (bs : List BtnEntry) : List BtnEntry :=
  bs.filterMap (fun e =>
    match e with
    | BtnEntry.nonDict => none
    | BtnEntry.dict b =>
      if b.text.trim = "" then none
      else if truthyS b.url then
        some (BtnEntry.dict { text := b.text.trim, url := b.url, callback_data := none })
      else if truthyS b.callback_data then
        some (BtnEntry.dict { text := b.text.trim, url := none, callback_data := b.callback_data })
      else none)

/-- main.py lines 144-168: partial update of the group at idx; an out-of-range
index raises IndexError before any mutation, modelled by returning the list
untouched.  A supplied message is stripped; a supplied truthy image is
basenamed and a supplied falsy image clears the field; supplied buttons are
sanitized. -/
def MessageGroupManager.update (groups : List MsgGroup) (idx : Nat)
    (message : Option String) (image : Option (List Char))
    (buttons : Option (List BtnEntry)) : List MsgGroup :=
  if h : idx < groups.length then
    let g := groups.get ⟨idx, h⟩
    let g1 := match message with
      | none => g
      | some m => { g with message := m.trim }
    let g2 := match image with
      | none => g1
      | some l => { g1 with image := if l = [] then none else some (basenameL l) }
    let g3 := match buttons with
      | none => g2
      | some bs => { g2 with buttons := sanitizeButtons bs }
    groups.set idx g3
  else groups

/-- main.py lines 137-142: delete by position; an out-of-range index raises
IndexError with the list untouched. -/
def MessageGroupManager.delete (groups : List MsgGroup) (idx : Nat) : List MsgGroup :=
  if idx < groups.length then groups.eraseIdx idx else groups

/-- A group as it sits in the JSON file before normalization: raw image value
and possibly missing or non-list buttons field (modelled none). -/
structure RawGroup where
  image : Option (List Char)
  message : String
  buttons : Option (List BtnEntry)

/-- main.py lines 94-120: _load forces the buttons field of every loaded group
to a list, and the constructor then replaces every truthy image value by its
basename (a falsy image value, absent or empty, is left alone).  A missing,
unreadable or malformed file loads as the empty pool. -/
def initPool (raws : List RawGroup) : List MsgGroup :=
  raws.map (fun r =>
    { image := match r.image with
        | none => none
        | some l => if l = [] then some [] else some (basenameL l),
      message := r.message,
      buttons := r.buttons.getD [] })

/-- The buttons form field of POST /api/groups as the endpoint discriminates
it (main.py lines 893-910): absent or empty; a string parsing as a JSON list;
a string parsing as other JSON (the isinstance check then keeps no buttons);
or a non-JSON string handled by the line fallback. -/
inductive ButtonsForm where
  | missing
  | jsonList (entries : List BtnEntry)
  | jsonOther
  | rawLines (lines : List String)

/-- main.py lines 902-910: one line of the non-JSON fallback: skip blank
lines; when the line holds a pipe, split text|url at the first pipe and strip
both halves; otherwise use the stripped line as text and callback_data alike. -/
def lineToBtn (line : String) : Option BtnJson :=
  let l := line.trim
  if l = "" then none
  else if l.toList.contains '|' then
    some { text := (String.mk (l.toList.takeWhile (fun c => c != '|'))).trim,
           url := some ((String.mk ((l.toList.dropWhile (fun c => c != '|')).drop 1)).trim),
           callback_data := none }
  else
    some { text := l, url := none, callback_data := some l }

/-- main.py lines 893-910: the parsed_buttons computation of the endpoint: a
JSON list keeps exactly the dict entries whose text is truthy; other JSON
keeps nothing; a non-JSON string goes through the line fallback. -/
def parseButtons : ButtonsForm → List BtnJson
  | ButtonsForm.missing => []
  | ButtonsForm.jsonOther => []
  | ButtonsForm.jsonList entries =>
      entries.filterMap (fun e =>
        match e with
        | BtnEntry.dict b => if b.text != "" then some b else none
        | BtnEntry.nonDict => none)
  | ButtonsForm.rawLines lines => lines.filterMap lineToBtn

/-- main.py lines 874-913: POST /api/groups parses the buttons field and
appends the new group via MessageGroupManager.add.  The optional upload is
abstracted by the generated file name handed to add. -/
def api_add_group (groups : List MsgGroup) (filename : Option (List Char))
    (message : String) (buttons : ButtonsForm) : List MsgGroup :=
  MessageGroupManager.add groups filename message ((parseButtons buttons).map BtnEntry.dict)

/-- Pool states reachable through the code paths of MessageGroupManager:
construction over any loaded file content, then any sequence of add, update
and delete (api_add_group is the add constructor with the parsed buttons). -/
inductive ReachablePool : List MsgGroup → Prop
  | init (raws : List RawGroup) : ReachablePool (initPool raws)
  | add (G : List MsgGroup) (img : Option (List Char)) (msg : String) (btns : List BtnEntry) :
      ReachablePool G → ReachablePool (MessageGroupManager.add G img msg btns)
  | update (G : List MsgGroup) (idx : Nat) (msg : Option String) (img : Option (List Char))
      (btns : Option (List BtnEntry)) :
      ReachablePool G → ReachablePool (MessageGroupManager.update G idx msg img btns)
  | del (G : List MsgGroup) (idx : Nat) :
      ReachablePool G → ReachablePool (MessageGroupManager.delete G idx)

/-- The image invariant of C10: absent, or a bare base filename containing no
directory separator. -/
def imageOk : Option (List Char) → Prop
  | none => True
  | some l => '/' ∉ l

theorem basenameL_no_slash (l : List Char) : '/' ∉ basenameL l := by
  suffices h : ∀ acc : List Char, '/' ∉ acc →
      '/' ∉ l.foldl (fun acc c => if c = '/' then [] else acc ++ [c]) acc by
    exact h [] (by simp)
  induction l with
  | nil =>
    intro acc hacc
    simpa using hacc
  | cons c rest ih =>
    intro acc hacc
    simp only [List.foldl_cons]
    by_cases hc : c = '/'
    · subst hc
      rw [if_pos rfl]
      exact ih [] (by simp)
    · rw [if_neg hc]
      refine ih _ ?_
      intro hmem
      rcases List.mem_append.mp hmem with h | h
      · exact hacc h
      · exact hc (List.mem_singleton.mp h).symm

theorem setImageOk (l : List Char) : imageOk (if l = [] then none else some (basenameL l)) := by
  by_cases h : l = []
  · rw [if_pos h]
    trivial
  · rw [if_neg h]
    show '/' ∉ basenameL l
    exact basenameL_no_slash l

theorem storeImage_ok (o : Option (List Char)) : imageOk (storeImage o) := by
  cases o with
  | none => trivial
  | some l => exact setImageOk l

/-- C10: in every pool state reachable through construction, load, add, update
and delete, every held group has an image that is either absent or a bare base
filename containing no directory component; the buttons field is a list by
construction (the loader and the constructor force it, which the typed model
reflects). -/
theorem c10_pool_image_invariant (G : List MsgGroup) (hG : ReachablePool G) :
    ∀ g ∈ G, imageOk g.image := by
  induction hG with
  | init raws =>
    intro g hg
    simp only [initPool, List.mem_map] at hg
    obtain ⟨r, -, rfl⟩ := hg
    cases hr : r.image with
    | none => simp only [hr]; trivial
    | some l =>
      simp only [hr]
      by_cases hl : l = []
      · rw [if_pos hl]
        show '/' ∉ ([] : List Char)
        simp
      · rw [if_neg hl]
        show '/' ∉ basenameL l
        exact basenameL_no_slash l
  | add G img msg btns hR ih =>
    intro g hg
    rcases List.mem_append.mp hg with h | h
    · exact ih g h
    · rcases List.mem_singleton.mp h with rfl
      exact storeImage_ok img
  | update G idx msg img btns hR ih =>
    intro g hg
    unfold MessageGroupManager.update at hg
    split at hg
    · rename_i hidx
      rcases List.mem_or_eq_of_mem_set hg with h | rfl
      · exact ih g h
      · have hbase : imageOk (G.get ⟨idx, hidx⟩).image :=
          ih _ (List.get_mem G idx hidx)
        cases msg <;> cases img <;> cases btns <;>
          first
          | exact hbase
          | exact setImageOk _
    · exact ih g hg
  | del G idx hR ih =>
    intro g hg
    unfold MessageGroupManager.delete at hg
    split at hg
    · exact ih g (List.mem_of_mem_eraseIdx hg)
    · exact ih g hg

/-- C10 witness: the invariant applied to the pool built over an empty file
and one add whose upload name carries a directory; the very group stored
satisfies the invariant, and its image is the bare base name. -/
theorem c10_pool_image_invariant_witness :
    imageOk (MsgGroup.mk (storeImage (some "dir/a.png".data)) ("hi".trim) []).image
    ∧ storeImage (some "dir/a.png".data) = some ("a.png".data) :=
  ⟨c10_pool_image_invariant _
      (ReachablePool.add (initPool []) (some "dir/a.png".data) "hi" []
        (ReachablePool.init []))
      _ (List.mem_append.mpr (Or.inr (List.mem_singleton.mpr rfl))),
    by decide⟩

/-- C5 as stated fails on the code: the add path stores a button that has text
but neither url nor actionToken.  api_add_group keeps every dict with truthy
text, and MessageGroupManager.add stores the parsed list verbatim, so the
malformed button is present in the stored collection after the add. -/
theorem c5_counterexample :
    api_add_group [] none "hello"
        (ButtonsForm.jsonList [BtnEntry.dict (BtnJson.mk "hi" none none)])
      = [MsgGroup.mk none ("hello".trim) [BtnEntry.dict (BtnJson.mk "hi" none none)]]
    ∧ truthyS (BtnJson.mk "hi" none none).url = false
    ∧ truthyS (BtnJson.mk "hi" none none).callback_data = false :=
  ⟨rfl, rfl, rfl⟩

/-- C5 amended: the add path sanitizes only partially.  When the buttons form
parses as a JSON list it drops the entries that are not dicts and the entries
with falsy text, and every button it keeps has non-empty text and comes from
the payload; the group is appended with exactly the kept buttons, unchanged -
in particular a kept button may have neither (or both) of url and actionToken
set.  Full sanitization (non-empty trimmed text, exactly one of the two
fields) is applied only by update, as the last conjunct states. -/
theorem c5_add_partial_sanitization (groups : List MsgGroup) (img : Option (List Char))
    (msg : String) (entries : List BtnEntry) :
    api_add_group groups img msg (ButtonsForm.jsonList entries)
      = groups ++ [MsgGroup.mk (storeImage img) msg.trim
          ((parseButtons (ButtonsForm.jsonList entries)).map BtnEntry.dict)]
    ∧ (∀ b ∈ parseButtons (ButtonsForm.jsonList entries),
        b.text ≠ "" ∧ BtnEntry.dict b ∈ entries)
    ∧ (∀ (bs : List BtnEntry) (e : BtnEntry), e ∈ sanitizeButtons bs →
        ∃ b, e = BtnEntry.dict b ∧ b.text ≠ ""
          ∧ (truthyS b.url = true ∧ b.callback_data = none
              ∨ b.url = none ∧ truthyS b.callback_data = true)) := by
  refine ⟨rfl, ?_, ?_⟩
  · intro b hb
    simp only [parseButtons, List.mem_filterMap] at hb
    obtain ⟨e, he, hmap⟩ := hb
    cases e with
    | nonDict => cases hmap
    | dict b' =>
      simp only at hmap
      split at hmap
      · rename_i htxt
        rw [Option.some.injEq] at hmap
        subst hmap
        exact ⟨by simpa using htxt, he⟩
      · cases hmap
  · intro bs e he
    simp only [sanitizeButtons, List.mem_filterMap] at he
    obtain ⟨e', he', hm⟩ := he
    cases e' with
    | nonDict => cases hm
    | dict b =>
      simp only at hm
      split at hm
      · cases hm
      · rename_i htxt
        split at hm
        · rename_i hurl
          rw [Option.some.injEq] at hm
          subst hm
          exact ⟨_, rfl, htxt, Or.inl ⟨hurl, rfl⟩⟩
        · rename_i hurl
          split at hm
          · rename_i hcb
            rw [Option.some.injEq] at hm
            subst hm
            refine ⟨_, rfl, htxt, Or.inr ⟨?_, hcb⟩⟩
            rfl
          · cases hm

/-- C5 amended witness: the theorem applied to a concrete JSON-list payload
holding a non-dict entry, an empty-text entry and a url button: the kept
button has non-empty text and comes from the payload. -/
theorem c5_add_partial_sanitization_witness :
    (BtnJson.mk "ok" (some "https://x") none).text ≠ ""
    ∧ BtnEntry.dict (BtnJson.mk "ok" (some "https://x") none)
        ∈ [BtnEntry.nonDict, BtnEntry.dict (BtnJson.mk "" (some "u") none),
           BtnEntry.dict (BtnJson.mk "ok" (some "https://x") none)] :=
  (c5_add_partial_sanitization [] none "m"
      [BtnEntry.nonDict, BtnEntry.dict (BtnJson.mk "" (some "u") none),
       BtnEntry.dict (BtnJson.mk "ok" (some "https://x") none)]).2.1
    (BtnJson.mk "ok" (some "https://x") none) (by decide)
